import Mathlib

/-!
Shallow embedding of the consumer-group inspection and offset/lag
reconciliation engine of `kafka-admin-cli` (package `internal/kafka`,
file `consumergroup.go`): `GetConsumerGroup`, `DeleteConsumerGroup`,
`handleConsumerGroupError`, and the per-partition lag policy.

Broker replies are modelled as explicit inputs: the describe reply as an
optional list of group descriptions (`none` models a transport error of
the request itself), and the two per-topic offset fetches as functions
from (topic, partitions) to an optional reply partition list (`none`
models a request error, which the Go code handles with `continue`).
The opaque `kmsg.ConsumerMemberAssignment.ReadFrom` decoder of the
external `franz-go` library is a parameter `decode`; `none` models a
decode error. Go `int64`/`int32`/`int16` values are modelled as `Int`
(the only arithmetic performed, `end - current`, cannot overflow int64
as it only happens with both operands nonnegative). Go maps are
modelled as functions to `Option` (last write wins); the iteration
order of the Go `topicPartitions` map, which is nondeterministic, is
modelled by quantifying over permutations of the canonical entry list.
Go `panic` from out-of-range slice indexing is modelled by an outer
`Option` (`none` = panic).
-/

namespace KafkaCLI

/-- Go `map[K]V` modelled as a lookup function. -/
def GoMap (α β : Type) := α → Option β

def GoMap.empty {α β : Type} : GoMap α β := fun _ => none

def GoMap.insert {α β : Type} [DecidableEq α] (m : GoMap α β) (k : α) (v : β) :
    GoMap α β := fun k' => if k' = k then some v else m k'

/-- `PartitionOffset` struct of consumergroup.go. -/
structure PartitionOffset where
  Current : Int
  EndOff : Int
  Lag : Int
  IsEmpty : Bool
  EndDisplay : String
deriving Repr, DecidableEq

/-- `ConsumerGroupMember` struct of consumergroup.go. -/
structure ConsumerGroupMember where
  ClientID : String
  ClientHost : String
  Assignments : GoMap String (List Int)

/-- `ConsumerGroupDetails` struct of consumergroup.go. -/
structure ConsumerGroupDetails where
  State : String
  Members : List ConsumerGroupMember
  Offsets : GoMap String (GoMap Int PartitionOffset)

/-- One member of the `DescribeGroups` reply: client id, client host and
the raw `MemberAssignment` bytes (`none` models a nil slice). -/
structure DescribedMember where
  ClientID : String
  ClientHost : String
  MemberAssignment : Option (List Nat)
deriving Repr, DecidableEq

/-- One group of the `DescribeGroups` reply. -/
structure DescribedGroup where
  ErrorCode : Int
  State : String
  Members : List DescribedMember

/-- One topic entry of a decoded `kmsg.ConsumerMemberAssignment`. -/
structure AssignedTopic where
  Topic : String
  Partitions : List Int
deriving Repr, DecidableEq

/-- The external `ReadFrom` decoder, abstracted: `none` models a decode
error. -/
abbrev Decoder := List Nat → Option (List AssignedTopic)

/-- One partition entry of an `OffsetFetch` or `ListOffsets` reply. -/
structure PartResp where
  Partition : Int
  Offset : Int
deriving Repr, DecidableEq

/-- Errors returned by the consumer-group operations, one constructor
per distinct `fmt.Errorf` site. -/
inductive CGError where
  | describeRequestFailed
  | groupNotFound (groupID : String)
  | consumerGroupNotFound
  | invalidConsumerGroupID
  | processFailed (code : Int)
  | deleteRequestFailed
  | deleteNotFound (groupID : String)
  | deleteInvalidID (groupID : String)
  | deleteNotEmpty (groupID : String)
  | deleteFailed (code : Int)
deriving Repr, DecidableEq

/-- `handleConsumerGroupError`: error code 7 is mapped to success
(`none`), 15 and 24 to dedicated errors, any other non-zero code to a
generic error carrying the raw code. -/
def handleConsumerGroupError (errorCode : Int) : Option CGError :=
  if errorCode ≠ 0 then
    if errorCode = 7 then none
    else if errorCode = 15 then some .consumerGroupNotFound
    else if errorCode = 24 then some .invalidConsumerGroupID
    else some (.processFailed errorCode)
  else none

/-- `DeleteConsumerGroup`: `resp` is the per-group error code list of the
`DeleteGroups` reply (`none` models a request error). -/
def DeleteConsumerGroup (groupID : String) (resp : Option (List Int)) :
    Option CGError :=
  match resp with
  | none => some .deleteRequestFailed
  | some groups =>
    match groups with
    | [] => none
    | code :: _ =>
      if code ≠ 0 then
        if code = 7 then none
        else if code = 15 then some (.deleteNotFound groupID)
        else if code = 24 then some (.deleteInvalidID groupID)
        else if code = 25 then some (.deleteNotEmpty groupID)
        else some (.deleteFailed code)
      else none

/-- The per-partition lag policy of the reconciliation loop of
`GetConsumerGroup` (lines 141-180 of consumergroup.go), applied to one
(current, end) pair. -/
def computePartitionOffset (current endOff : Int) : PartitionOffset :=
  if endOff = -1 then
    if current ≤ 0 then
      { Current := current, EndOff := endOff, Lag := 0, IsEmpty := true,
        EndDisplay := "Empty" }
    else
      { Current := current, EndOff := endOff, Lag := 0, IsEmpty := false,
        EndDisplay := "At latest" }
  else
    if current < 0 then
      { Current := current, EndOff := endOff, Lag := endOff, IsEmpty := false,
        EndDisplay := toString endOff }
    else
      { Current := current, EndOff := endOff,
        Lag := if endOff - current < 0 then 0 else endOff - current,
        IsEmpty := false, EndDisplay := toString endOff }

/-- `topicPartitions[topic] = append(topicPartitions[topic], parts...)`
on an entry list in first-insertion order. -/
def tpAppend (tps : List (String × List Int)) (t : String) (ps : List Int) :
    List (String × List Int) :=
  match tps with
  | [] => [(t, ps)]
  | (t', ps') :: rest =>
    if t' = t then (t', ps' ++ ps) :: rest else (t', ps') :: tpAppend rest t ps

/-- The member-processing loop of `GetConsumerGroup` (lines 77-98):
returns the `members` list and the `topicPartitions` entry list.  A nil
assignment payload keeps the member with an empty assignment map; a
payload that fails to decode makes the loop `continue`, skipping the
member entirely. -/
def processMembersGo (decode : Decoder) (tps : List (String × List Int)) :
    List DescribedMember → List ConsumerGroupMember × List (String × List Int)
  | [] => ([], tps)
  | m :: rest =>
    match m.MemberAssignment with
    | none =>
      let r := processMembersGo decode tps rest
      ({ ClientID := m.ClientID, ClientHost := m.ClientHost,
         Assignments := GoMap.empty } :: r.1, r.2)
    | some payload =>
      match decode payload with
      | none => processMembersGo decode tps rest
      | some topics =>
        let assignments :=
          topics.foldl (fun a t => GoMap.insert a t.Topic t.Partitions)
            GoMap.empty
        let tps1 := topics.foldl (fun a t => tpAppend a t.Topic t.Partitions) tps
        let r := processMembersGo decode tps1 rest
        ({ ClientID := m.ClientID, ClientHost := m.ClientHost,
           Assignments := assignments } :: r.1, r.2)

/-- Inner reconciliation loop (`for i, partition := range partitions`):
indexes both replies positionally; an out-of-range index models the Go
panic as `none`. -/
def reconcileGo (committed latest : List PartResp) :
    List Int → Nat → GoMap Int PartitionOffset →
    Option (GoMap Int PartitionOffset)
  | [], _, m => some m
  | p :: rest, i, m =>
    match committed[i]?, latest[i]? with
    | some c, some e =>
      reconcileGo committed latest rest (i + 1)
        (GoMap.insert m p (computePartitionOffset c.Offset e.Offset))
    | _, _ => none

/-- Reconciliation of one topic: pairs the committed and latest replies
by position with the requested partition list. -/
def reconcileTopic (partitions : List Int) (committed latest : List PartResp) :
    Option (GoMap Int PartitionOffset) :=
  reconcileGo committed latest partitions 0 GoMap.empty

/-- A per-topic offset fetch: given topic and requested partitions,
returns the reply partition list, or `none` for a request error. -/
abbrev Fetch := String → List Int → Option (List PartResp)

/-- One step of the per-topic offset loop of `GetConsumerGroup` (lines
102-181): a failed fetch skips the topic (`continue`); a succeeded pair
of fetches runs the reconciliation, whose panic (`none`) aborts the
whole call. -/
def offsetsStep (fc fl : Fetch)
    (acc : Option (GoMap String (GoMap Int PartitionOffset)))
    (e : String × List Int) :
    Option (GoMap String (GoMap Int PartitionOffset)) :=
  match acc with
  | none => none
  | some m =>
    match fc e.1 e.2, fl e.1 e.2 with
    | some committed, some latest =>
      match reconcileTopic e.2 committed latest with
      | some pm => some (GoMap.insert m e.1 pm)
      | none => none
    | _, _ => some m

/-- The per-topic offset loop of `GetConsumerGroup`, iterating over the
`topicPartitions` entries in the given order. -/
def buildOffsets (fc fl : Fetch) (tps : List (String × List Int)) :
    Option (GoMap String (GoMap Int PartitionOffset)) :=
  tps.foldl (offsetsStep fc fl) (some GoMap.empty)

/-- `GetConsumerGroup`: the returned pair models Go's
`(*ConsumerGroupDetails, error)`; the outer `Option` is `none` when the
reconciliation loop panics. -/
def GetConsumerGroup (decode : Decoder) (groupID : String)
    (descResp : Option (List DescribedGroup)) (fc fl : Fetch) :
    Option (Option ConsumerGroupDetails × Option CGError) :=
  match descResp with
  | none => some (none, some .describeRequestFailed)
  | some groups =>
    match groups with
    | [] => some (none, some (.groupNotFound groupID))
    | group :: _ =>
      if group.ErrorCode ≠ 0 then
        some (none, handleConsumerGroupError group.ErrorCode)
      else
        let r := processMembersGo decode [] group.Members
        match buildOffsets fc fl r.2 with
        | none => none
        | some offsets =>
          some (some { State := group.State, Members := r.1,
                       Offsets := offsets }, none)

/-- Transcription of the lag-policy table of spec §4.3 (as quoted by the
claim), for the refinement comparison with `computePartitionOffset`:
`none` where the table has no row. -/
def specLagTable (current endOff : Int) : Option (Int × Bool × String) :=
  if endOff = -1 ∧ current ≤ 0 then some (0, true, "Empty")
  else if endOff = -1 ∧ current > 0 then some (0, false, "At latest")
  else if endOff ≠ -1 ∧ current < 0 then some (endOff, false, toString endOff)
  else if endOff ≠ -1 ∧ 0 ≤ current ∧ current ≤ endOff then
    some (endOff - current, false, toString endOff)
  else if endOff ≠ -1 ∧ current > endOff ∧ endOff ≥ 0 then
    some (0, false, toString endOff)
  else none

/-- What one iteration of the member loop contributes to the `members`
list: a member with a nil payload is kept with an empty assignment map,
a member whose payload fails to decode is dropped (`continue`), and a
member whose payload decodes is kept with the decoded assignments. -/
def keptMember (decode : Decoder) (m : DescribedMember) :
    Option ConsumerGroupMember :=
  match m.MemberAssignment with
  | none =>
    some { ClientID := m.ClientID, ClientHost := m.ClientHost,
           Assignments := GoMap.empty }
  | some payload =>
    match decode payload with
    | none => none
    | some topics =>
      some { ClientID := m.ClientID, ClientHost := m.ClientHost,
             Assignments :=
               topics.foldl (fun a t => GoMap.insert a t.Topic t.Partitions)
                 GoMap.empty }

/-- Membership of a described member with a nil payload, as it appears
in the snapshot. -/
def emptyAssignMember (m : DescribedMember) : ConsumerGroupMember :=
  { ClientID := m.ClientID, ClientHost := m.ClientHost,
    Assignments := GoMap.empty }

/-! ## Theorems -/

/-- C1: for every (current, end) pair of int64 offsets processed by the
offset reconciliation inside GetConsumerGroup, the resulting
(lag, isEmpty, endDisplay) triple equals the §4.3 table exactly:
end == -1 and current <= 0 gives (0, true, "Empty"); end == -1 and
current > 0 gives (0, false, "At latest"); end != -1 and current < 0
gives (end, false, string(end)); end != -1 and 0 <= current <= end
gives (end - current, false, string(end)); end != -1 and
current > end >= 0 gives (0, false, string(end)). -/
theorem c1_lag_policy_matches_spec_table (current endOff l : Int) (b : Bool)
    (d : String) (h : specLagTable current endOff = some (l, b, d)) :
    ((computePartitionOffset current endOff).Lag,
     (computePartitionOffset current endOff).IsEmpty,
     (computePartitionOffset current endOff).EndDisplay) = (l, b, d) := by
  unfold specLagTable at h
  unfold computePartitionOffset
  split_ifs at h ⊢ <;> simp_all <;> rcases h with ⟨rfl, rfl, rfl⟩ <;>
    first | rfl | omega

/-- C1 witness: the table row (current=100, end=150) evaluated
concretely. -/
theorem c1_witness :
    specLagTable 100 150 = some (50, false, "150") ∧
    ((computePartitionOffset 100 150).Lag,
     (computePartitionOffset 100 150).IsEmpty,
     (computePartitionOffset 100 150).EndDisplay) = (50, false, "150") :=
  ⟨by decide, c1_lag_policy_matches_spec_table 100 150 50 false "150"
    (by decide)⟩

/-- C2 counterexample: when the latest-offset reply carries the
(protocol-impossible, but unchecked) end offset -2 for a partition with
no committed offset, the stored lag is -2 < 0: the branch
end != -1, current < 0 sets lag to end without a clamp. -/
theorem c2_counterexample :
    ((((GetConsumerGroup
        (fun _ => some [{ Topic := "t", Partitions := [0] }]) "g"
        (some [{ ErrorCode := 0, State := "Stable",
                 Members := [{ ClientID := "c", ClientHost := "h",
                               MemberAssignment := some [] }] }])
        (fun _ _ => some [{ Partition := 0, Offset := -1 }])
        (fun _ _ => some [{ Partition := 0, Offset := -2 }])).bind
      (fun r => r.1)).bind (fun d => d.Offsets "t")).bind
      (fun pm => pm 0)).map PartitionOffset.Lag = some (-2) := rfl

/-- Helper: the lag policy yields a nonnegative lag whenever the end
offset is at least -1 (the values a real broker can report). -/
theorem computePartitionOffset_lag_nonneg (current endOff : Int)
    (h : -1 ≤ endOff) : 0 ≤ (computePartitionOffset current endOff).Lag := by
  unfold computePartitionOffset
  split_ifs <;> simp_all
  omega

/-- Helper: the inner reconciliation loop preserves nonnegative lag when
every latest-offset reply entry is at least -1. -/
theorem reconcileGo_lag_nonneg (committed latest : List PartResp)
    (hl : ∀ r ∈ latest, -1 ≤ r.Offset) (ps : List Int) :
    ∀ (i : Nat) (m : GoMap Int PartitionOffset),
    (∀ p po, m p = some po → 0 ≤ po.Lag) →
    ∀ m', reconcileGo committed latest ps i m = some m' →
    ∀ p po, m' p = some po → 0 ≤ po.Lag := by
  induction ps with
  | nil =>
    intro i m hm m' hr p po hpo
    simp only [reconcileGo, Option.some.injEq] at hr
    subst hr
    exact hm p po hpo
  | cons p0 rest ih =>
    intro i m hm m' hr p po hpo
    simp only [reconcileGo] at hr
    split at hr
    · rename_i c e hc he
      refine ih (i + 1) _ ?_ m' hr p po hpo
      intro q qo hq
      simp only [GoMap.insert] at hq
      split at hq
      · cases hq
        exact computePartitionOffset_lag_nonneg c.Offset e.Offset
          (hl e (List.getElem?_mem he))
      · exact hm q qo hq
    · exact absurd hr (by simp)

/-- Helper: a negative fold result is absorbing. -/
theorem foldl_offsetsStep_none (fc fl : Fetch)
    (tps : List (String × List Int)) :
    List.foldl (offsetsStep fc fl) none tps = none := by
  induction tps with
  | nil => rfl
  | cons e rest ih => simpa [offsetsStep] using ih

/-- Helper: one step of the per-topic offset loop preserves nonnegative
lag when every latest-offset reply entry is at least -1. -/
theorem offsetsStep_lag_nonneg (fc fl : Fetch)
    (hfl : ∀ t ps reply, fl t ps = some reply → ∀ r ∈ reply, -1 ≤ r.Offset)
    (m0 : GoMap String (GoMap Int PartitionOffset))
    (e : String × List Int)
    (h0 : ∀ t pm, m0 t = some pm → ∀ p po, pm p = some po → 0 ≤ po.Lag)
    (m1 : GoMap String (GoMap Int PartitionOffset))
    (h1 : offsetsStep fc fl (some m0) e = some m1) :
    ∀ t pm, m1 t = some pm → ∀ p po, pm p = some po → 0 ≤ po.Lag := by
  intro t pm hpm p po hpo
  simp only [offsetsStep] at h1
  split at h1
  · rename_i committed latest hfc hfl2
    split at h1
    · rename_i pm0 hrec
      cases h1
      simp only [GoMap.insert] at hpm
      split at hpm
      · cases hpm
        exact reconcileGo_lag_nonneg committed latest
          (hfl e.1 e.2 latest hfl2) e.2 0 GoMap.empty
          (fun q qo hq => by simp [GoMap.empty] at hq) pm hrec p po hpo
      · exact h0 t pm hpm p po hpo
    · exact absurd h1 (by simp)
  · cases h1
    exact h0 t pm hpm p po hpo

/-- Helper: the whole per-topic offset loop preserves nonnegative lag
when every latest-offset reply entry is at least -1. -/
theorem foldlOffsets_lag_nonneg (fc fl : Fetch)
    (hfl : ∀ t ps reply, fl t ps = some reply → ∀ r ∈ reply, -1 ≤ r.Offset)
    (tps : List (String × List Int)) :
    ∀ (m0 : GoMap String (GoMap Int PartitionOffset)),
    (∀ t pm, m0 t = some pm → ∀ p po, pm p = some po → 0 ≤ po.Lag) →
    ∀ m, List.foldl (offsetsStep fc fl) (some m0) tps = some m →
    ∀ t pm, m t = some pm → ∀ p po, pm p = some po → 0 ≤ po.Lag := by
  induction tps with
  | nil =>
    intro m0 h0 m hm
    simp only [List.foldl_nil, Option.some.injEq] at hm
    exact hm ▸ h0
  | cons e rest ih =>
    intro m0 h0 m hm
    rw [List.foldl_cons] at hm
    cases h1 : offsetsStep fc fl (some m0) e with
    | none => rw [h1, foldl_offsetsStep_none] at hm; simp at hm
    | some m1 =>
      rw [h1] at hm
      exact ih m1 (offsetsStep_lag_nonneg fc fl hfl m0 e h0 m1 h1) m hm

/-- C2 amended: every PartitionOffset stored in a snapshot returned by
GetConsumerGroup has Lag >= 0, provided every offset in the
latest-offset replies is at least -1 (which real brokers guarantee);
for an arbitrary int64 end offset the branch end != -1, current < 0
sets lag to end without a clamp and the invariant fails (see the
counterexample). -/
theorem c2_lag_nonneg (decode : Decoder) (gid : String)
    (descResp : Option (List DescribedGroup)) (fc fl : Fetch)
    (hfl : ∀ t ps reply, fl t ps = some reply → ∀ r ∈ reply, -1 ≤ r.Offset)
    (res : Option ConsumerGroupDetails × Option CGError)
    (hres : GetConsumerGroup decode gid descResp fc fl = some res)
    (d : ConsumerGroupDetails) (hd : res.1 = some d)
    (t : String) (pm : GoMap Int PartitionOffset) (hpm : d.Offsets t = some pm)
    (p : Int) (po : PartitionOffset) (hpo : pm p = some po) : 0 ≤ po.Lag := by
  cases descResp with
  | none =>
    simp only [GetConsumerGroup, Option.some.injEq] at hres
    subst hres; simp at hd
  | some groups =>
    cases groups with
    | nil =>
      simp only [GetConsumerGroup, Option.some.injEq] at hres
      subst hres; simp at hd
    | cons g rest =>
      simp only [GetConsumerGroup] at hres
      by_cases h0 : g.ErrorCode = 0
      · rw [if_neg (by simp [h0])] at hres
        split at hres
        · exact absurd hres (by simp)
        · rename_i off hb
          cases hres
          simp only [Option.some.injEq] at hd
          subst hd
          simp only at hpm
          exact foldlOffsets_lag_nonneg fc fl hfl _ GoMap.empty
            (fun q qo hq => by simp [GoMap.empty] at hq) off hb t pm hpm p po
            hpo
      · rw [if_pos h0] at hres
        simp only [Option.some.injEq] at hres
        subst hres; simp at hd

/-- C2 witness: a concrete session with a latest offset of 7 and a
committed offset of 3 yields a stored lag that is nonnegative. -/
theorem c2_witness :
    ∃ res d pm po,
      GetConsumerGroup (fun _ => some [{ Topic := "t", Partitions := [0] }])
          "g"
          (some [{ ErrorCode := 0, State := "Stable",
                   Members := [{ ClientID := "c", ClientHost := "h",
                                 MemberAssignment := some [] }] }])
          (fun _ _ => some [{ Partition := 0, Offset := 3 }])
          (fun _ _ => some [{ Partition := 0, Offset := 7 }])
        = some res
      ∧ res.1 = some d ∧ d.Offsets "t" = some pm ∧ pm 0 = some po
      ∧ 0 ≤ po.Lag := by
  refine ⟨_, _, _, _, rfl, rfl, rfl, rfl, ?_⟩
  exact c2_lag_nonneg (fun _ => some [{ Topic := "t", Partitions := [0] }])
    "g"
    (some [{ ErrorCode := 0, State := "Stable",
             Members := [{ ClientID := "c", ClientHost := "h",
                           MemberAssignment := some [] }] }])
    (fun _ _ => some [{ Partition := 0, Offset := 3 }])
    (fun _ _ => some [{ Partition := 0, Offset := 7 }])
    (by intro t ps reply h r hr
        cases h
        simp only [List.mem_singleton] at hr
        subst hr
        decide)
    _ rfl _ rfl "t" _ rfl 0 _ rfl

/-- Helper: the members list built by the member loop is exactly the
`filterMap` of `keptMember` over the described members, independent of
the `topicPartitions` accumulator. -/
theorem processMembersGo_members (decode : Decoder)
    (ms : List DescribedMember) :
    ∀ tps : List (String × List Int),
    (processMembersGo decode tps ms).1 = ms.filterMap (keptMember decode) := by
  induction ms with
  | nil => intro tps; rfl
  | cons m rest ih =>
    intro tps
    simp only [processMembersGo, keptMember, List.filterMap_cons]
    cases hma : m.MemberAssignment with
    | none => simp [ih]
    | some payload =>
      cases hd : decode payload with
      | none => simp [hd, ih]
      | some topics => simp [hd, ih]

/-- C3 counterexample: a group with a single member whose assignment
payload fails to decode yields a snapshot with an empty Members list —
the member is not included with an empty assignments map. -/
theorem c3_counterexample :
    ((GetConsumerGroup (fun _ => none) "g"
        (some [{ ErrorCode := 0, State := "Stable",
                 Members := [{ ClientID := "bad", ClientHost := "h",
                               MemberAssignment := some [0] }] }])
        (fun _ _ => none) (fun _ _ => none)).map
      (fun r => (r.1.map (fun d => d.Members.length), r.2)))
      = some (some 0, none) := rfl

/-- C3 amended: a member whose assignment payload fails to decode is
omitted from the snapshot's Members list (the loop `continue`s past it
without failing the group): the Members list is exactly the described
members kept by `keptMember`, which drops precisely the members whose
payload is present but does not decode. -/
theorem c3_decode_failure_member_omitted (decode : Decoder)
    (tps : List (String × List Int)) (ms : List DescribedMember)
    (m : DescribedMember) (payload : List Nat)
    (hp : m.MemberAssignment = some payload) (hd : decode payload = none) :
    (processMembersGo decode tps ms).1 = ms.filterMap (keptMember decode)
    ∧ keptMember decode m = none := by
  constructor
  · exact processMembersGo_members decode ms tps
  · simp [keptMember, hp, hd]

/-- C3 witness: concrete evaluation with one undecodable member and one
good member. -/
theorem c3_witness :
    ((processMembersGo (fun payload => if payload = [0] then none else
          some [{ Topic := "t", Partitions := [1] }]) []
        [{ ClientID := "bad", ClientHost := "h",
           MemberAssignment := some [0] },
         { ClientID := "good", ClientHost := "h2",
           MemberAssignment := some [1] }]).1
      = List.filterMap
          (keptMember (fun payload => if payload = [0] then none else
            some [{ Topic := "t", Partitions := [1] }]))
          [{ ClientID := "bad", ClientHost := "h",
             MemberAssignment := some [0] },
           { ClientID := "good", ClientHost := "h2",
             MemberAssignment := some [1] }])
    ∧ keptMember (fun payload => if payload = [0] then none else
        some [{ Topic := "t", Partitions := [1] }])
      { ClientID := "bad", ClientHost := "h",
        MemberAssignment := some [0] } = none :=
  c3_decode_failure_member_omitted _ [] _
    { ClientID := "bad", ClientHost := "h", MemberAssignment := some [0] }
    [0] rfl (by simp)

/-- C4: a member whose assignment payload fails to decode (e.g. is
truncated mid-field) does not make GetConsumerGroup return an error for
the whole group: the call returns a snapshot, and every member kept by
the loop (in particular every other member, with client id, host and
assignments) still appears in it. -/
theorem c4_truncated_payload_not_fatal (decode : Decoder) (gid : String)
    (g : DescribedGroup) (rest : List DescribedGroup) (fc fl : Fetch)
    (h0 : g.ErrorCode = 0)
    (m : DescribedMember) (_hm : m ∈ g.Members) (payload : List Nat)
    (_hp : m.MemberAssignment = some payload) (_hd : decode payload = none)
    (off : GoMap String (GoMap Int PartitionOffset))
    (hoff : buildOffsets fc fl (processMembersGo decode [] g.Members).2
      = some off) :
    ∃ d, GetConsumerGroup decode gid (some (g :: rest)) fc fl
        = some (some d, none)
      ∧ ∀ m2 ∈ g.Members, ∀ cm, keptMember decode m2 = some cm →
          cm ∈ d.Members := by
  refine ⟨{ State := g.State,
            Members := (processMembersGo decode [] g.Members).1,
            Offsets := off }, ?_, ?_⟩
  · simp only [GetConsumerGroup]
    rw [if_neg (by simp [h0]), hoff]
  · intro m2 hm2 cm hcm
    rw [processMembersGo_members]
    exact List.mem_filterMap.2 ⟨m2, hm2, hcm⟩

/-- C4 witness: a two-member group whose first member has a truncated
payload still yields a snapshot containing the second member. -/
theorem c4_witness :
    ∃ d, GetConsumerGroup
        (fun payload => if payload = [9] then none else
          some [{ Topic := "t", Partitions := [0] }]) "g"
        (some [{ ErrorCode := 0, State := "Stable",
                 Members := [{ ClientID := "bad", ClientHost := "h",
                               MemberAssignment := some [9] },
                             { ClientID := "good", ClientHost := "h2",
                               MemberAssignment := some [2] }] }])
        (fun _ _ => some [{ Partition := 0, Offset := 4 }])
        (fun _ _ => some [{ Partition := 0, Offset := 9 }])
      = some (some d, none)
      ∧ ∀ m2 ∈ [{ ClientID := "bad", ClientHost := "h",
                  MemberAssignment := some [9] },
                { ClientID := "good", ClientHost := "h2",
                  MemberAssignment := some [2] }],
          ∀ cm, keptMember (fun payload => if payload = [9] then none else
              some [{ Topic := "t", Partitions := [0] }]) m2 = some cm →
            cm ∈ d.Members :=
  c4_truncated_payload_not_fatal
    (fun payload => if payload = [9] then none else
      some [{ Topic := "t", Partitions := [0] }]) "g"
    { ErrorCode := 0, State := "Stable",
      Members := [{ ClientID := "bad", ClientHost := "h",
                    MemberAssignment := some [9] },
                  { ClientID := "good", ClientHost := "h2",
                    MemberAssignment := some [2] }] } [] _ _ rfl
    { ClientID := "bad", ClientHost := "h", MemberAssignment := some [9] }
    (by simp) [9] rfl (by simp) _ rfl

/-- C5: on a describe reply whose per-group status code is 7 (the
"metadata propagating" code), GetConsumerGroup returns nil details and
a nil error: no error is surfaced, but — contrary to the spec — no
group snapshot is returned either (the CLI caller then dereferences the
nil details pointer). -/
theorem c5_code7_returns_nil_nil :
    GetConsumerGroup (fun _ => none) "g"
      (some [{ ErrorCode := 7, State := "Stable",
               Members := [{ ClientID := "c", ClientHost := "h",
                             MemberAssignment := none }] }])
      (fun _ _ => none) (fun _ _ => none) = some (none, none) := rfl

/-- Helper: keys of the `topicPartitions` entry list after one append:
an existing key keeps its place, a new key goes to the end. -/
theorem tpAppend_keys (t : String) (ps : List Int) :
    ∀ tps : List (String × List Int),
    (tpAppend tps t ps).map Prod.fst
      = if t ∈ tps.map Prod.fst then tps.map Prod.fst
        else tps.map Prod.fst ++ [t] := by
  intro tps
  induction tps with
  | nil => simp [tpAppend]
  | cons e rest ih =>
    obtain ⟨t', ps'⟩ := e
    by_cases h : t' = t
    · subst h
      simp [tpAppend]
    · by_cases hm : t ∈ rest.map Prod.fst <;>
        simp [tpAppend, h, ih, hm, Ne.symm h]

/-- Helper: one append preserves distinctness of the topic keys. -/
theorem tpAppend_keys_nodup (t : String) (ps : List Int)
    (tps : List (String × List Int)) (h : (tps.map Prod.fst).Nodup) :
    ((tpAppend tps t ps).map Prod.fst).Nodup := by
  rw [tpAppend_keys]
  split_ifs with hm
  · exact h
  · exact List.Nodup.append h (List.nodup_singleton t) (by simpa using hm)

/-- Helper: appending all topics of one decoded assignment preserves
distinctness of the topic keys. -/
theorem foldl_tpAppend_nodup (topics : List AssignedTopic) :
    ∀ tps : List (String × List Int), (tps.map Prod.fst).Nodup →
    (((topics.foldl (fun a t => tpAppend a t.Topic t.Partitions) tps)).map
        Prod.fst).Nodup := by
  induction topics with
  | nil => intro tps h; exact h
  | cons tp rest ih =>
    intro tps h
    exact ih _ (tpAppend_keys_nodup _ _ _ h)

/-- Helper: the member loop keeps the topic keys of `topicPartitions`
distinct (they come from a Go map). -/
theorem processMembersGo_tps_nodup (decode : Decoder)
    (ms : List DescribedMember) :
    ∀ tps : List (String × List Int), (tps.map Prod.fst).Nodup →
    (((processMembersGo decode tps ms).2).map Prod.fst).Nodup := by
  induction ms with
  | nil => intro tps h; exact h
  | cons m rest ih =>
    intro tps h
    cases hma : m.MemberAssignment with
    | none => simpa only [processMembersGo, hma] using ih tps h
    | some payload =>
      cases hd : decode payload with
      | none => simpa only [processMembersGo, hma, hd] using ih tps h
      | some topics =>
        simpa only [processMembersGo, hma, hd] using
          ih _ (foldl_tpAppend_nodup topics tps h)

/-- Helper: full characterization of the per-topic offset loop over an
entry list with distinct keys, assuming no reconciliation panic: the
loop never fails, a topic whose fetch pair failed keeps its initial
(absent) entry, and a topic whose fetch pair succeeded is mapped to its
reconciled partition map. -/
theorem foldlOffsets_spec (fc fl : Fetch) (tps : List (String × List Int)) :
    ∀ m0 : GoMap String (GoMap Int PartitionOffset),
    (tps.map Prod.fst).Nodup →
    (∀ t ps cr lr, (t, ps) ∈ tps → fc t ps = some cr → fl t ps = some lr →
      (reconcileTopic ps cr lr).isSome) →
    ∃ m, List.foldl (offsetsStep fc fl) (some m0) tps = some m
      ∧ (∀ t, t ∉ tps.map Prod.fst → m t = m0 t)
      ∧ (∀ t ps, (t, ps) ∈ tps → (fc t ps = none ∨ fl t ps = none) →
          m t = m0 t)
      ∧ (∀ t ps cr lr pm, (t, ps) ∈ tps → fc t ps = some cr →
          fl t ps = some lr → reconcileTopic ps cr lr = some pm →
          m t = some pm) := by
  induction tps with
  | nil =>
    intro m0 _ _
    exact ⟨m0, rfl, fun t _ => rfl,
      fun t ps h => absurd h (List.not_mem_nil _),
      fun t ps cr lr pm h => absurd h (List.not_mem_nil _)⟩
  | cons e rest ih =>
    obtain ⟨t0, ps0⟩ := e
    intro m0 hnd hok
    have hnd2 : ((t0, ps0).1 :: rest.map Prod.fst).Nodup := by simpa using hnd
    have ht0 : t0 ∉ rest.map Prod.fst := (List.nodup_cons.1 hnd2).1
    have hndr : (rest.map Prod.fst).Nodup := (List.nodup_cons.1 hnd2).2
    have hokr : ∀ t ps cr lr, (t, ps) ∈ rest → fc t ps = some cr →
        fl t ps = some lr → (reconcileTopic ps cr lr).isSome :=
      fun t ps cr lr h => hok t ps cr lr (List.mem_cons_of_mem _ h)
    rw [List.foldl_cons]
    cases hfc : fc t0 ps0 with
    | none =>
      have hstep : offsetsStep fc fl (some m0) (t0, ps0) = some m0 := by
        simp [offsetsStep, hfc]
      rw [hstep]
      obtain ⟨m, hm, hframe, hskip, hsucc⟩ := ih m0 hndr hokr
      refine ⟨m, hm, ?_, ?_, ?_⟩
      · intro t ht
        exact hframe t (fun hh => ht (List.mem_cons_of_mem _ hh))
      · intro t ps hmem hfail
        rcases List.mem_cons.1 hmem with heq | hmem2
        · cases heq
          exact hframe t0 ht0
        · exact hskip t ps hmem2 hfail
      · intro t ps cr lr pm hmem h1 h2 h3
        rcases List.mem_cons.1 hmem with heq | hmem2
        · cases heq
          exact absurd h1 (by simp [hfc])
        · exact hsucc t ps cr lr pm hmem2 h1 h2 h3
    | some cr0 =>
      cases hfl0 : fl t0 ps0 with
      | none =>
        have hstep : offsetsStep fc fl (some m0) (t0, ps0) = some m0 := by
          simp [offsetsStep, hfc, hfl0]
        rw [hstep]
        obtain ⟨m, hm, hframe, hskip, hsucc⟩ := ih m0 hndr hokr
        refine ⟨m, hm, ?_, ?_, ?_⟩
        · intro t ht
          exact hframe t (fun hh => ht (List.mem_cons_of_mem _ hh))
        · intro t ps hmem hfail
          rcases List.mem_cons.1 hmem with heq | hmem2
          · cases heq
            exact hframe t0 ht0
          · exact hskip t ps hmem2 hfail
        · intro t ps cr lr pm hmem h1 h2 h3
          rcases List.mem_cons.1 hmem with heq | hmem2
          · cases heq
            exact absurd h2 (by simp [hfl0])
          · exact hsucc t ps cr lr pm hmem2 h1 h2 h3
      | some lr0 =>
        obtain ⟨pm0, hpm0⟩ := Option.isSome_iff_exists.1
          (hok t0 ps0 cr0 lr0 (List.mem_cons_self _ _) hfc hfl0)
        have hstep : offsetsStep fc fl (some m0) (t0, ps0)
            = some (GoMap.insert m0 t0 pm0) := by
          simp [offsetsStep, hfc, hfl0, hpm0]
        rw [hstep]
        obtain ⟨m, hm, hframe, hskip, hsucc⟩ :=
          ih (GoMap.insert m0 t0 pm0) hndr hokr
        have hins : ∀ t, t ≠ t0 → GoMap.insert m0 t0 pm0 t = m0 t := by
          intro t ht
          simp [GoMap.insert, ht]
        refine ⟨m, hm, ?_, ?_, ?_⟩
        · intro t ht
          have ht1 : t ≠ t0 := by
            intro hh
            exact ht (hh ▸ List.mem_cons_self _ _)
          have ht2 : t ∉ rest.map Prod.fst :=
            fun hh => ht (List.mem_cons_of_mem _ hh)
          rw [hframe t ht2, hins t ht1]
        · intro t ps hmem hfail
          rcases List.mem_cons.1 hmem with heq | hmem2
          · cases heq
            rcases hfail with h | h
            · exact absurd hfc (by simp [h])
            · exact absurd hfl0 (by simp [h])
          · have ht1 : t ≠ t0 := by
              intro hh
              subst hh
              exact ht0 (List.mem_map.2 ⟨(t, ps), hmem2, rfl⟩)
            rw [hskip t ps hmem2 hfail, hins t ht1]
        · intro t ps cr lr pm hmem h1 h2 h3
          rcases List.mem_cons.1 hmem with heq | hmem2
          · cases heq
            have hcr : cr0 = cr := Option.some.inj (hfc.symm.trans h1)
            have hlr : lr0 = lr := Option.some.inj (hfl0.symm.trans h2)
            subst hcr
            subst hlr
            have hpm : pm0 = pm := Option.some.inj (hpm0.symm.trans h3)
            subst hpm
            rw [hframe t0 ht0]
            simp [GoMap.insert]
          · exact hsucc t ps cr lr pm hmem2 h1 h2 h3

/-- C6: when the committed-offset fetch or the latest-offset fetch for
one topic fails, GetConsumerGroup skips that topic silently: the call
still returns a snapshot with no error, the snapshot has no offsets
entry for the failed topic, and every topic whose two fetches succeed
keeps its reconciled offsets. (The hypothesis `hok` rules out the
positional-indexing panic for the successful topics, cf. C8.) -/
theorem c6_failed_topic_skipped (decode : Decoder) (gid : String)
    (g : DescribedGroup) (rest : List DescribedGroup) (fc fl : Fetch)
    (h0 : g.ErrorCode = 0)
    (hok : ∀ t ps cr lr, (t, ps) ∈ (processMembersGo decode [] g.Members).2 →
      fc t ps = some cr → fl t ps = some lr →
      (reconcileTopic ps cr lr).isSome) :
    ∃ d, GetConsumerGroup decode gid (some (g :: rest)) fc fl
        = some (some d, none)
      ∧ (∀ t ps, (t, ps) ∈ (processMembersGo decode [] g.Members).2 →
          (fc t ps = none ∨ fl t ps = none) → d.Offsets t = none)
      ∧ (∀ t ps cr lr pm,
          (t, ps) ∈ (processMembersGo decode [] g.Members).2 →
          fc t ps = some cr → fl t ps = some lr →
          reconcileTopic ps cr lr = some pm → d.Offsets t = some pm) := by
  obtain ⟨m, hm, hframe, hskip, hsucc⟩ :=
    foldlOffsets_spec fc fl (processMembersGo decode [] g.Members).2
      GoMap.empty
      (processMembersGo_tps_nodup decode g.Members [] (by simp)) hok
  refine ⟨{ State := g.State,
            Members := (processMembersGo decode [] g.Members).1,
            Offsets := m }, ?_, ?_, ?_⟩
  · simp only [GetConsumerGroup]
    rw [if_neg (by simp [h0])]
    have hb : buildOffsets fc fl (processMembersGo decode [] g.Members).2
        = some m := hm
    rw [hb]
  · intro t ps hmem hfail
    simpa [GoMap.empty] using hskip t ps hmem hfail
  · intro t ps cr lr pm hmem h1 h2 h3
    exact hsucc t ps cr lr pm hmem h1 h2 h3

/-- C6 witness: a group over topics "a" and "b" where the committed
fetch for "a" fails: the snapshot has no entry for "a" and keeps the
reconciled entry for "b". -/
theorem c6_witness :
    ∃ d, GetConsumerGroup
        (fun _ => some [{ Topic := "a", Partitions := [0] },
                        { Topic := "b", Partitions := [1] }]) "g"
        (some [{ ErrorCode := 0, State := "Stable",
                 Members := [{ ClientID := "c", ClientHost := "h",
                               MemberAssignment := some [1] }] }])
        (fun t _ => if t = "a" then none
          else some [{ Partition := 1, Offset := 3 }])
        (fun _ _ => some [{ Partition := 1, Offset := 7 }])
      = some (some d, none)
      ∧ (∀ t ps, (t, ps) ∈ (processMembersGo
            (fun _ => some [{ Topic := "a", Partitions := [0] },
                            { Topic := "b", Partitions := [1] }]) []
            [{ ClientID := "c", ClientHost := "h",
               MemberAssignment := some [1] }]).2 →
          ((if t = "a" then (none : Option (List PartResp))
              else some [({ Partition := 1, Offset := 3 } : PartResp)]) = none
            ∨ (some [({ Partition := 1, Offset := 7 } : PartResp)]
                : Option (List PartResp)) = none) →
          d.Offsets t = none)
      ∧ (∀ t ps cr lr pm, (t, ps) ∈ (processMembersGo
            (fun _ => some [{ Topic := "a", Partitions := [0] },
                            { Topic := "b", Partitions := [1] }]) []
            [{ ClientID := "c", ClientHost := "h",
               MemberAssignment := some [1] }]).2 →
          (if t = "a" then (none : Option (List PartResp))
            else some [({ Partition := 1, Offset := 3 } : PartResp)])
            = some cr →
          (some [({ Partition := 1, Offset := 7 } : PartResp)]
            : Option (List PartResp)) = some lr →
          reconcileTopic ps cr lr = some pm → d.Offsets t = some pm) :=
  c6_failed_topic_skipped
    (fun _ => some [{ Topic := "a", Partitions := [0] },
                    { Topic := "b", Partitions := [1] }]) "g"
    { ErrorCode := 0, State := "Stable",
      Members := [{ ClientID := "c", ClientHost := "h",
                    MemberAssignment := some [1] }] } []
    (fun t _ => if t = "a" then none
      else some [{ Partition := 1, Offset := 3 }])
    (fun _ _ => some [{ Partition := 1, Offset := 7 }]) rfl
    (by
      intro t ps cr lr hmem h1 h2
      have htps : (processMembersGo
          (fun _ => some [{ Topic := "a", Partitions := [0] },
                          { Topic := "b", Partitions := [1] }]) []
          [{ ClientID := "c", ClientHost := "h",
             MemberAssignment := some [1] }]).2
          = [("a", [0]), ("b", [1])] := rfl
      rw [htps] at hmem
      rcases List.mem_cons.1 hmem with heq | hmem2
      · cases heq
        simp at h1
      · rcases List.mem_cons.1 hmem2 with heq | hmem3
        · cases heq
          simp only [] at h1 h2
          rw [if_neg (by decide)] at h1
          cases h1
          cases h2
          rfl
        · exact absurd hmem3 (List.not_mem_nil _))

/-- C7 counterexample: the broker reply with per-group status code 7 is
non-zero yet yields no error at all — DeleteConsumerGroup treats it as
silent success, so "every other non-zero code yields a generic failure"
is false at code 7. -/
theorem c7_counterexample :
    DeleteConsumerGroup "g" (some [7]) = none ∧ (7 : Int) ≠ 0 :=
  ⟨rfl, by decide⟩

/-- C7 amended: DeleteConsumerGroup maps code 15 to a not-found error,
24 to an invalid-identifier error, 25 to a group-not-empty error, code
7 (and 0) to silent success, and every other non-zero code to a generic
failure carrying the raw code. -/
theorem c7_delete_error_mapping (gid : String) (tail : List Int)
    (code : Int) :
    DeleteConsumerGroup gid none = some .deleteRequestFailed
    ∧ DeleteConsumerGroup gid (some (15 :: tail)) = some (.deleteNotFound gid)
    ∧ DeleteConsumerGroup gid (some (24 :: tail))
        = some (.deleteInvalidID gid)
    ∧ DeleteConsumerGroup gid (some (25 :: tail))
        = some (.deleteNotEmpty gid)
    ∧ DeleteConsumerGroup gid (some (7 :: tail)) = none
    ∧ DeleteConsumerGroup gid (some (0 :: tail)) = none
    ∧ (code ≠ 0 → code ≠ 7 → code ≠ 15 → code ≠ 24 → code ≠ 25 →
        DeleteConsumerGroup gid (some (code :: tail))
          = some (.deleteFailed code)) := by
  refine ⟨rfl, rfl, rfl, rfl, rfl, rfl, ?_⟩
  intro h0 h7 h15 h24 h25
  simp [DeleteConsumerGroup, h0, h7, h15, h24, h25]

/-- C7 witness: the mapping evaluated at the test inputs of
TestDeleteConsumerGroup, with 99 as the generic code. -/
theorem c7_witness :
    DeleteConsumerGroup "test-group" none = some .deleteRequestFailed
    ∧ DeleteConsumerGroup "test-group" (some [15])
        = some (.deleteNotFound "test-group")
    ∧ DeleteConsumerGroup "test-group" (some [24])
        = some (.deleteInvalidID "test-group")
    ∧ DeleteConsumerGroup "test-group" (some [25])
        = some (.deleteNotEmpty "test-group")
    ∧ DeleteConsumerGroup "test-group" (some [7]) = none
    ∧ DeleteConsumerGroup "test-group" (some [0]) = none
    ∧ DeleteConsumerGroup "test-group" (some [99])
        = some (.deleteFailed 99) := by
  obtain ⟨h1, h2, h3, h4, h5, h6, h7⟩ :=
    c7_delete_error_mapping "test-group" [] 99
  exact ⟨h1, h2, h3, h4, h5, h6,
    h7 (by decide) (by decide) (by decide) (by decide) (by decide)⟩

/-- Helper: when both replies carry an entry for the requested partition
at every requested index, the inner reconciliation loop succeeds (no
out-of-range panic) and stores, under each requested partition, a value
computed from reply entries labelled with that same partition. -/
theorem reconcileGo_spec (committed latest : List PartResp) :
    ∀ (ps : List Int) (i : Nat) (m : GoMap Int PartitionOffset),
    (∀ j (hj : j < ps.length), ∃ c, committed[i + j]? = some c
      ∧ c.Partition = ps.get ⟨j, hj⟩) →
    (∀ j (hj : j < ps.length), ∃ e, latest[i + j]? = some e
      ∧ e.Partition = ps.get ⟨j, hj⟩) →
    ∃ m', reconcileGo committed latest ps i m = some m'
      ∧ (∀ p, p ∉ ps → m' p = m p)
      ∧ (∀ p, p ∈ ps → ∃ c e, c ∈ committed ∧ e ∈ latest
          ∧ c.Partition = p ∧ e.Partition = p
          ∧ m' p = some (computePartitionOffset c.Offset e.Offset)) := by
  intro ps
  induction ps with
  | nil =>
    intro i m _ _
    exact ⟨m, rfl, fun p _ => rfl, fun p hp => absurd hp (List.not_mem_nil _)⟩
  | cons p0 rest ih =>
    intro i m hc hl
    obtain ⟨c0, hc0, hc0p⟩ := hc 0 (by simp)
    obtain ⟨e0, he0, he0p⟩ := hl 0 (by simp)
    rw [Nat.add_zero] at hc0 he0
    have hc0p2 : c0.Partition = p0 := by simpa using hc0p
    have he0p2 : e0.Partition = p0 := by simpa using he0p
    have hstep : reconcileGo committed latest (p0 :: rest) i m
        = reconcileGo committed latest rest (i + 1)
            (GoMap.insert m p0
              (computePartitionOffset c0.Offset e0.Offset)) := by
      simp [reconcileGo, hc0, he0]
    rw [hstep]
    have hc2 : ∀ j (hj : j < rest.length), ∃ c, committed[(i + 1) + j]?
        = some c ∧ c.Partition = rest.get ⟨j, hj⟩ := by
      intro j hj
      obtain ⟨c, h1, h2⟩ := hc (j + 1) (by simpa using Nat.succ_lt_succ hj)
      refine ⟨c, ?_, ?_⟩
      · rw [show (i + 1) + j = i + (j + 1) by omega]
        exact h1
      · simpa using h2
    have hl2 : ∀ j (hj : j < rest.length), ∃ e, latest[(i + 1) + j]?
        = some e ∧ e.Partition = rest.get ⟨j, hj⟩ := by
      intro j hj
      obtain ⟨e, h1, h2⟩ := hl (j + 1) (by simpa using Nat.succ_lt_succ hj)
      refine ⟨e, ?_, ?_⟩
      · rw [show (i + 1) + j = i + (j + 1) by omega]
        exact h1
      · simpa using h2
    obtain ⟨m', hm', hframe, hmem⟩ := ih (i + 1) _ hc2 hl2
    refine ⟨m', hm', ?_, ?_⟩
    · intro p hp
      have hp0 : p ≠ p0 := fun h => hp (h ▸ List.mem_cons_self _ _)
      have hpr : p ∉ rest := fun h => hp (List.mem_cons_of_mem _ h)
      rw [hframe p hpr]
      simp [GoMap.insert, hp0]
    · intro p hp
      rcases List.mem_cons.1 hp with rfl | hpr
      · by_cases hp0r : p ∈ rest
        · exact hmem p hp0r
        · refine ⟨c0, e0, List.getElem?_mem hc0, List.getElem?_mem he0,
            hc0p2, he0p2, ?_⟩
          rw [hframe p hp0r]
          simp [GoMap.insert]
      · exact hmem p hpr

/-- C8: under the precondition that the committed-offset reply and the
latest-offset reply each list exactly the requested partitions in the
request order, the positional indexing of the reconciliation loop is in
bounds (no panic), and the PartitionOffset stored under partition p is
computed from a committed reply entry and a latest reply entry both
labelled p (pairing is positional, never re-keyed). -/
theorem c8_positional_pairing (ps : List Int) (cr lr : List PartResp)
    (hc : cr.map PartResp.Partition = ps)
    (hl : lr.map PartResp.Partition = ps) :
    ∃ m, reconcileTopic ps cr lr = some m
      ∧ ∀ p ∈ ps, ∃ c e, c ∈ cr ∧ e ∈ lr ∧ c.Partition = p
          ∧ e.Partition = p
          ∧ m p = some (computePartitionOffset c.Offset e.Offset) := by
  have hc2 : ∀ j (hj : j < ps.length), ∃ c, cr[0 + j]? = some c
      ∧ c.Partition = ps.get ⟨j, hj⟩ := by
    intro j hj
    have h1 : (cr[j]?).map PartResp.Partition = ps[j]? := by
      rw [← List.getElem?_map, hc]
    rw [List.getElem?_eq_getElem hj] at h1
    obtain ⟨c, hcj, hcp⟩ := Option.map_eq_some'.1 h1
    exact ⟨c, by simpa using hcj, by simpa using hcp⟩
  have hl2 : ∀ j (hj : j < ps.length), ∃ e, lr[0 + j]? = some e
      ∧ e.Partition = ps.get ⟨j, hj⟩ := by
    intro j hj
    have h1 : (lr[j]?).map PartResp.Partition = ps[j]? := by
      rw [← List.getElem?_map, hl]
    rw [List.getElem?_eq_getElem hj] at h1
    obtain ⟨e, hej, hep⟩ := Option.map_eq_some'.1 h1
    exact ⟨e, by simpa using hej, by simpa using hep⟩
  obtain ⟨m, hm, _, hmem⟩ := reconcileGo_spec cr lr ps 0 GoMap.empty hc2 hl2
  exact ⟨m, hm, hmem⟩

/-- C8 witness: two partitions with aligned replies. -/
theorem c8_witness :
    ∃ m, reconcileTopic [0, 1]
        [{ Partition := 0, Offset := 3 }, { Partition := 1, Offset := 4 }]
        [{ Partition := 0, Offset := 10 }, { Partition := 1, Offset := 9 }]
      = some m
      ∧ ∀ p ∈ [(0 : Int), 1], ∃ c e,
          c ∈ [({ Partition := 0, Offset := 3 } : PartResp),
               { Partition := 1, Offset := 4 }]
          ∧ e ∈ [({ Partition := 0, Offset := 10 } : PartResp),
                 { Partition := 1, Offset := 9 }]
          ∧ c.Partition = p ∧ e.Partition = p
          ∧ m p = some (computePartitionOffset c.Offset e.Offset) :=
  c8_positional_pairing [0, 1]
    [{ Partition := 0, Offset := 3 }, { Partition := 1, Offset := 4 }]
    [{ Partition := 0, Offset := 10 }, { Partition := 1, Offset := 9 }]
    (by decide) (by decide)

/-- Helper: the offset-loop step for two topics with distinct names
right-commutes; the step for equal entries trivially right-commutes. -/
theorem offsetsStep_comm (fc fl : Fetch) (e1 e2 : String × List Int)
    (hne : e1.1 ≠ e2.1)
    (z : Option (GoMap String (GoMap Int PartitionOffset))) :
    offsetsStep fc fl (offsetsStep fc fl z e1) e2
      = offsetsStep fc fl (offsetsStep fc fl z e2) e1 := by
  cases z with
  | none => rfl
  | some m =>
    cases hfc1 : fc e1.1 e1.2 with
    | none =>
      cases hfc2 : fc e2.1 e2.2 with
      | none => simp [offsetsStep, hfc1, hfc2]
      | some c2 =>
        cases hfl2 : fl e2.1 e2.2 with
        | none => simp [offsetsStep, hfc1, hfc2, hfl2]
        | some l2 =>
          cases hrec2 : reconcileTopic e2.2 c2 l2 with
          | none => simp [offsetsStep, hfc1, hfc2, hfl2, hrec2]
          | some pm2 => simp [offsetsStep, hfc1, hfc2, hfl2, hrec2]
    | some c1 =>
      cases hfl1 : fl e1.1 e1.2 with
      | none =>
        cases hfc2 : fc e2.1 e2.2 with
        | none => simp [offsetsStep, hfc1, hfl1, hfc2]
        | some c2 =>
          cases hfl2 : fl e2.1 e2.2 with
          | none => simp [offsetsStep, hfc1, hfl1, hfc2, hfl2]
          | some l2 =>
            cases hrec2 : reconcileTopic e2.2 c2 l2 with
            | none => simp [offsetsStep, hfc1, hfl1, hfc2, hfl2, hrec2]
            | some pm2 => simp [offsetsStep, hfc1, hfl1, hfc2, hfl2, hrec2]
      | some l1 =>
        cases hrec1 : reconcileTopic e1.2 c1 l1 with
        | none =>
          cases hfc2 : fc e2.1 e2.2 with
          | none => simp [offsetsStep, hfc1, hfl1, hrec1, hfc2]
          | some c2 =>
            cases hfl2 : fl e2.1 e2.2 with
            | none => simp [offsetsStep, hfc1, hfl1, hrec1, hfc2, hfl2]
            | some l2 =>
              cases hrec2 : reconcileTopic e2.2 c2 l2 with
              | none =>
                simp [offsetsStep, hfc1, hfl1, hrec1, hfc2, hfl2, hrec2]
              | some pm2 =>
                simp [offsetsStep, hfc1, hfl1, hrec1, hfc2, hfl2, hrec2]
        | some pm1 =>
          cases hfc2 : fc e2.1 e2.2 with
          | none => simp [offsetsStep, hfc1, hfl1, hrec1, hfc2]
          | some c2 =>
            cases hfl2 : fl e2.1 e2.2 with
            | none => simp [offsetsStep, hfc1, hfl1, hrec1, hfc2, hfl2]
            | some l2 =>
              cases hrec2 : reconcileTopic e2.2 c2 l2 with
              | none =>
                simp [offsetsStep, hfc1, hfl1, hrec1, hfc2, hfl2, hrec2]
              | some pm2 =>
                simp only [offsetsStep, hfc1, hfl1, hrec1, hfc2, hfl2,
                  hrec2, Option.some.injEq]
                funext k
                simp only [GoMap.insert]
                by_cases h1 : k = e1.1 <;> by_cases h2 : k = e2.1
                · exact absurd (h1.symm.trans h2) hne
                · simp only [h1, h2, if_pos rfl, if_neg (h1 ▸ h2)]
                · simp only [h1, h2, if_pos rfl, if_neg (h2 ▸ h1)]
                · simp [h1, h2]

/-- Helper: over an entry list with distinct topic keys, the offset loop
computes the same result for any permutation of the iteration order. -/
theorem buildOffsets_perm (fc fl : Fetch)
    (tps1 tps2 : List (String × List Int))
    (hperm : tps1.Perm tps2) (hnd : (tps1.map Prod.fst).Nodup) :
    buildOffsets fc fl tps1 = buildOffsets fc fl tps2 := by
  refine List.Perm.foldl_eq' hperm ?_ _
  intro x hx y hy z
  by_cases hxy : x = y
  · subst hxy
    rfl
  · exact offsetsStep_comm fc fl x y
      (fun hk => hxy (List.inj_on_of_nodup_map hnd hx hy hk)) z

/-- C9: with fixed broker replies, the result of GetConsumerGroup does
not depend on the nondeterministic iteration order of the Go
`topicPartitions` map: running the per-topic offset loop in any
permuted order yields the same call result (State, Members and the
Offsets map as a function), so two consecutive calls under an unchanged
broker state return snapshots with identical offsets and members
content. -/
theorem c9_snapshot_deterministic (decode : Decoder) (gid : String)
    (g : DescribedGroup) (rest : List DescribedGroup) (fc fl : Fetch)
    (tps2 : List (String × List Int))
    (h0 : g.ErrorCode = 0)
    (hperm : ((processMembersGo decode [] g.Members).2).Perm tps2) :
    GetConsumerGroup decode gid (some (g :: rest)) fc fl
      = match buildOffsets fc fl tps2 with
        | none => none
        | some off => some (some { State := g.State,
                                   Members :=
                                     (processMembersGo decode [] g.Members).1,
                                   Offsets := off }, none) := by
  have hb : buildOffsets fc fl (processMembersGo decode [] g.Members).2
      = buildOffsets fc fl tps2 :=
    buildOffsets_perm fc fl _ _ hperm
      (processMembersGo_tps_nodup decode g.Members [] (by simp))
  simp only [GetConsumerGroup]
  rw [if_neg (by simp [h0]), hb]

/-- C9 witness: a two-topic group evaluated with the offset loop run in
the reversed iteration order. -/
theorem c9_witness :
    GetConsumerGroup
        (fun _ => some [{ Topic := "a", Partitions := [0] },
                        { Topic := "b", Partitions := [1] }]) "g"
        (some [{ ErrorCode := 0, State := "Stable",
                 Members := [{ ClientID := "c", ClientHost := "h",
                               MemberAssignment := some [1] }] }])
        (fun _ _ => some [{ Partition := 0, Offset := 2 }])
        (fun _ _ => some [{ Partition := 0, Offset := 6 }])
      = match buildOffsets
          (fun _ _ => some [{ Partition := 0, Offset := 2 }])
          (fun _ _ => some [{ Partition := 0, Offset := 6 }])
          [("b", [1]), ("a", [0])] with
        | none => none
        | some off => some (some { State := "Stable",
                                   Members := (processMembersGo
                                     (fun _ => some
                                       [{ Topic := "a", Partitions := [0] },
                                        { Topic := "b", Partitions := [1] }])
                                     []
                                     [{ ClientID := "c", ClientHost := "h",
                                        MemberAssignment := some [1] }]).1,
                                   Offsets := off }, none) :=
  c9_snapshot_deterministic
    (fun _ => some [{ Topic := "a", Partitions := [0] },
                    { Topic := "b", Partitions := [1] }]) "g"
    { ErrorCode := 0, State := "Stable",
      Members := [{ ClientID := "c", ClientHost := "h",
                    MemberAssignment := some [1] }] } []
    (fun _ _ => some [{ Partition := 0, Offset := 2 }])
    (fun _ _ => some [{ Partition := 0, Offset := 6 }])
    [("b", [1]), ("a", [0])] rfl (by decide)

/-- Helper: members with a nil assignment payload contribute nothing to
the `topicPartitions` entry list: removing them leaves it unchanged. -/
theorem processMembersGo_snd_filter (decode : Decoder)
    (ms : List DescribedMember) :
    ∀ tps : List (String × List Int), (processMembersGo decode tps ms).2
      = (processMembersGo decode tps
          (ms.filter (fun x => x.MemberAssignment.isSome))).2 := by
  induction ms with
  | nil => intro tps; rfl
  | cons m rest ih =>
    intro tps
    cases hma : m.MemberAssignment with
    | none => simp [processMembersGo, hma, List.filter_cons, ih tps]
    | some payload =>
      cases hd : decode payload with
      | none => simp [processMembersGo, hma, hd, List.filter_cons, ih tps]
      | some topics => simp [processMembersGo, hma, hd, List.filter_cons, ih]

/-- C10: a member whose assignment payload is nil is included in the
snapshot's Members list with an empty assignments map, and such members
contribute no topics or partitions to the `topicPartitions` entry list
that feeds the snapshot's Offsets map — unlike a member whose payload
is present but malformed, which `keptMember` (hence the Members list,
cf. C3) drops. -/
theorem c10_nil_payload_member (decode : Decoder)
    (tps : List (String × List Int)) (ms : List DescribedMember)
    (m : DescribedMember) (hm : m ∈ ms)
    (hnil : m.MemberAssignment = none) :
    emptyAssignMember m ∈ (processMembersGo decode tps ms).1
    ∧ (processMembersGo decode tps ms).2
        = (processMembersGo decode tps
            (ms.filter (fun x => x.MemberAssignment.isSome))).2 := by
  constructor
  · rw [processMembersGo_members]
    refine List.mem_filterMap.2 ⟨m, hm, ?_⟩
    simp [keptMember, hnil, emptyAssignMember]
  · exact processMembersGo_snd_filter decode ms tps

/-- C10 witness: a nil-payload member next to a decodable member. -/
theorem c10_witness :
    emptyAssignMember { ClientID := "c", ClientHost := "h",
                        MemberAssignment := none }
      ∈ (processMembersGo
          (fun _ => some [{ Topic := "t", Partitions := [1] }]) []
          [{ ClientID := "c", ClientHost := "h", MemberAssignment := none },
           { ClientID := "d", ClientHost := "i",
             MemberAssignment := some [0] }]).1
    ∧ (processMembersGo
          (fun _ => some [{ Topic := "t", Partitions := [1] }]) []
          [{ ClientID := "c", ClientHost := "h", MemberAssignment := none },
           { ClientID := "d", ClientHost := "i",
             MemberAssignment := some [0] }]).2
        = (processMembersGo
            (fun _ => some [{ Topic := "t", Partitions := [1] }]) []
            ([{ ClientID := "c", ClientHost := "h",
                MemberAssignment := none },
              { ClientID := "d", ClientHost := "i",
                MemberAssignment := some [0] }].filter
              (fun x => x.MemberAssignment.isSome))).2 :=
  c10_nil_payload_member
    (fun _ => some [{ Topic := "t", Partitions := [1] }]) []
    [{ ClientID := "c", ClientHost := "h", MemberAssignment := none },
     { ClientID := "d", ClientHost := "i", MemberAssignment := some [0] }]
    { ClientID := "c", ClientHost := "h", MemberAssignment := none }
    (List.mem_cons_self _ _) rfl

end KafkaCLI
